import Mathlib

/-!
Verification development for the ftl waitable-event core: the clock type
`TimeDelta`, the `Monitor`/`MonitorLocker` pair (embedded from
`synchronization/monitor.cc`), and the two waitable-event variants
(`AutoResetWaitableEvent`, `ManualResetWaitableEvent`).  The event classes and
`time/time_delta.h` themselves are not among the available sources (only their
unit tests are), so those definitions are modelled from the specification,
which prescribes a boolean `signaled` flag guarded by the event's lock and, for
the manual-reset variant, a monotonically increasing signal-epoch counter
incremented on every `Signal()`.
-/

namespace Ftl

/-- Modelled from the spec: `TimeDelta` (`time/time_delta.h` is not among the
sources; only its unit test is).  A signed duration held in nanoseconds, with
the saturating `Min`/`Max` sentinels at the extremes of a 64-bit signed
integer. -/
structure TimeDelta where
  delta : Int
deriving DecidableEq

/-- Modelled from the spec: `TimeDelta::Zero()`. -/
def TimeDelta.Zero : TimeDelta := ⟨0⟩

/-- Modelled from the spec: `TimeDelta::Min()`, the saturating minimum sentinel. -/
def TimeDelta.Min : TimeDelta := ⟨-(2 ^ 63)⟩

/-- Modelled from the spec: `TimeDelta::Max()`, the saturating maximum sentinel. -/
def TimeDelta.Max : TimeDelta := ⟨2 ^ 63 - 1⟩

/-- Modelled from the spec: `TimeDelta::FromMilliseconds`, converting a
millisecond count to nanoseconds. -/
def TimeDelta.FromMilliseconds (ms : Int) : TimeDelta := ⟨ms * 1000000⟩

/-- Modelled from the spec: `TimeDelta::FromSeconds`, converting a second count
to nanoseconds. -/
def TimeDelta.FromSeconds (s : Int) : TimeDelta := ⟨s * 1000000000⟩

/-- Modelled from the spec: the strict ordering on `TimeDelta` (comparison of
the underlying nanosecond counts). -/
def TimeDelta.lt (a b : TimeDelta) : Bool := a.delta < b.delta

/-- Modelled from the spec: `AutoResetWaitableEvent` data.  Its entire
lock-protected state is the boolean `signaled` flag (`waitable_event.h` is not
among the sources; only its unit test is). -/
structure AutoResetWaitableEvent where
  signaled : Bool
deriving DecidableEq

/-- Modelled from the spec: `AutoResetWaitableEvent::Signal()` body under the
lock sets `signaled_` to true (and signals the condition variable). -/
def AutoResetWaitableEvent.Signal (_e : AutoResetWaitableEvent) :
    AutoResetWaitableEvent := ⟨true⟩

/-- Modelled from the spec: `AutoResetWaitableEvent::Reset()` unconditionally
clears `signaled_`. -/
def AutoResetWaitableEvent.Reset (_e : AutoResetWaitableEvent) :
    AutoResetWaitableEvent := ⟨false⟩

/-- Modelled from the spec: `AutoResetWaitableEvent::IsSignaledForTest()` reads
the flag under the lock. -/
def AutoResetWaitableEvent.IsSignaledForTest (e : AutoResetWaitableEvent) :
    Bool := e.signaled

/-- Modelled from the spec: the first atomic section of
`AutoResetWaitableEvent::WaitWithTimeout(d)` — under the lock, the wait loop
first re-checks `signaled_` (claiming it and returning false when set), and
otherwise checks the deadline; a zero or negative `d` makes the deadline
already elapsed, so the call returns true without blocking.  `none` means the
call would block (positive timeout, unsignaled event). -/
def AutoResetWaitableEvent.WaitWithTimeoutFast (e : AutoResetWaitableEvent)
    (d : TimeDelta) : Option (Bool × AutoResetWaitableEvent) :=
  if e.signaled then some (false, ⟨false⟩)
  else if d.delta ≤ 0 then some (true, e)
  else none

/-- Modelled from the spec: `ManualResetWaitableEvent` data.  Its
lock-protected state is the boolean `signaled` flag together with the
signal-epoch counter `signalId` incremented on every `Signal()` (the spec's
prescribed mechanism for race immunity against a subsequent `Reset()`). -/
structure ManualResetWaitableEvent where
  signaled : Bool
  signalId : Nat
deriving DecidableEq

/-- Modelled from the spec: `ManualResetWaitableEvent::Signal()` sets
`signaled_`, increments the signal epoch and broadcasts to all waiters. -/
def ManualResetWaitableEvent.Signal (e : ManualResetWaitableEvent) :
    ManualResetWaitableEvent := ⟨true, e.signalId + 1⟩

/-- Modelled from the spec: `ManualResetWaitableEvent::Reset()` unconditionally
clears `signaled_`; it never touches the epoch counter. -/
def ManualResetWaitableEvent.Reset (e : ManualResetWaitableEvent) :
    ManualResetWaitableEvent := ⟨false, e.signalId⟩

/-- Modelled from the spec: `ManualResetWaitableEvent::IsSignaledForTest()`. -/
def ManualResetWaitableEvent.IsSignaledForTest (e : ManualResetWaitableEvent) :
    Bool := e.signaled

/-- Modelled from the spec: the immediate-return path of
`ManualResetWaitableEvent::Wait()` — if `signaled_` is already set the call
returns at once with no state change; `none` means the call records the
current epoch and blocks. -/
def ManualResetWaitableEvent.WaitFast (e : ManualResetWaitableEvent) :
    Option ManualResetWaitableEvent :=
  if e.signaled then some e else none

/-- Modelled from the spec: the first atomic section of
`ManualResetWaitableEvent::WaitWithTimeout(d)` — if `signaled_` is set the
call returns false with no state change; otherwise a nonpositive `d` means the
deadline has already elapsed and the call returns true without blocking.
`none` means the call would block. -/
def ManualResetWaitableEvent.WaitWithTimeoutFast (e : ManualResetWaitableEvent)
    (d : TimeDelta) : Option (Bool × ManualResetWaitableEvent) :=
  if e.signaled then some (false, e)
  else if d.delta ≤ 0 then some (true, e)
  else none

/-- Modelled from the spec: a thread blocked inside
`AutoResetWaitableEvent::Wait` or `WaitWithTimeout` (`timed` distinguishes the
timed variant, which may give up once its deadline passes). -/
structure AutoWaiter where
  tid : Nat
  timed : Bool
deriving DecidableEq

/-- Modelled from the spec: the lock-serialized global state of one
`AutoResetWaitableEvent` together with the threads blocked on it and the
results of completed wait calls (`true` = the call reported a timeout). -/
structure AutoSys where
  ev : AutoResetWaitableEvent
  blocked : List AutoWaiter
  completions : List (Nat × Bool)
deriving DecidableEq

/-- Labels of the atomic (lock-protected) sections of the auto-reset event
operations. -/
inductive AutoLabel where
  | signal : AutoLabel
  | reset : AutoLabel
  | enter : Nat → Bool → AutoLabel
  | enterClaim : Nat → AutoLabel
  | wake : Nat → AutoLabel
  | timeout : Nat → AutoLabel
deriving DecidableEq

/-- Thread `t` is neither currently blocked on the event nor has it already
completed a wait call in this system. -/
def freshA (s : AutoSys) (t : Nat) : Prop :=
  (∀ w ∈ s.blocked, w.tid ≠ t) ∧ (∀ c ∈ s.completions, c.1 ≠ t)

/-- Modelled from the spec: the atomic sections of `AutoResetWaitableEvent`,
each executed under the event's internal lock.
`signal`/`reset` embed `Signal()`/`Reset()`.  `enter` is a wait call finding
the event unsignaled and blocking on the condition variable; `enterClaim` is a
wait call finding the event already signaled and claiming it at once.  `wake`
is a blocked thread resuming, re-checking `signaled_`, finding it set and
exiting its wait loop by atomically clearing the flag (the claim); a spurious
resume that finds the flag clear simply re-blocks and is a stutter.  `timeout`
is a timed waiter resuming after its deadline with the flag clear and
returning `true` (timed out); per the loop structure the timed-out return is
only reachable while `signaled_` is false. -/
inductive AutoStep : AutoSys → AutoLabel → AutoSys → Prop where
  | signal (s : AutoSys) :
      AutoStep s AutoLabel.signal ⟨s.ev.Signal, s.blocked, s.completions⟩
  | reset (s : AutoSys) :
      AutoStep s AutoLabel.reset ⟨s.ev.Reset, s.blocked, s.completions⟩
  | enter (s : AutoSys) (t : Nat) (timed : Bool) :
      s.ev.signaled = false → freshA s t →
      AutoStep s (AutoLabel.enter t timed)
        ⟨s.ev, ⟨t, timed⟩ :: s.blocked, s.completions⟩
  | enterClaim (s : AutoSys) (t : Nat) :
      s.ev.signaled = true → freshA s t →
      AutoStep s (AutoLabel.enterClaim t)
        ⟨⟨false⟩, s.blocked, (t, false) :: s.completions⟩
  | wake (s : AutoSys) (w : AutoWaiter) :
      w ∈ s.blocked → s.ev.signaled = true →
      AutoStep s (AutoLabel.wake w.tid)
        ⟨⟨false⟩, s.blocked.erase w, (w.tid, false) :: s.completions⟩
  | timeout (s : AutoSys) (w : AutoWaiter) :
      w ∈ s.blocked → w.timed = true → s.ev.signaled = false →
      AutoStep s (AutoLabel.timeout w.tid)
        ⟨s.ev, s.blocked.erase w, (w.tid, true) :: s.completions⟩

/-- Finite interleavings of atomic sections of the auto-reset event. -/
inductive AutoTrace : AutoSys → List AutoLabel → AutoSys → Prop where
  | nil (s : AutoSys) : AutoTrace s [] s
  | cons {s s₁ s₂ : AutoSys} {l : AutoLabel} {ls : List AutoLabel} :
      AutoStep s l s₁ → AutoTrace s₁ ls s₂ → AutoTrace s (l :: ls) s₂

/-- Recognizes `Signal()` steps. -/
def isSignalLabel : AutoLabel → Bool
  | AutoLabel.signal => true
  | _ => false

/-- Recognizes `Reset()` steps. -/
def isResetLabel : AutoLabel → Bool
  | AutoLabel.reset => true
  | _ => false

/-- Recognizes the steps in which some wait call claims the signal (a blocked
thread waking, or an entering call finding the event already signaled). -/
def isClaimLabel : AutoLabel → Bool
  | AutoLabel.enterClaim _ => true
  | AutoLabel.wake _ => true
  | _ => false

/-- Number of `Signal()` calls in a schedule. -/
def countSignals : List AutoLabel → Nat
  | [] => 0
  | AutoLabel.signal :: ls => countSignals ls + 1
  | _ :: ls => countSignals ls

/-- Number of claims (successful wait completions that consumed the signal) in
a schedule. -/
def countClaims : List AutoLabel → Nat
  | [] => 0
  | AutoLabel.enterClaim _ :: ls => countClaims ls + 1
  | AutoLabel.wake _ :: ls => countClaims ls + 1
  | _ :: ls => countClaims ls

/-- One if the flag is set, zero otherwise. -/
def sigBit (b : Bool) : Nat := if b then 1 else 0

/-- The schedule of the `MultipleWaiters` test: the signaling thread issues one
`Signal()` at a time and polls until exactly one waiter has woken before
issuing the next (so the `Signal()` calls are sequential, with each one's wake
completing in between). -/
def roundLabels : List AutoWaiter → List AutoLabel
  | [] => []
  | w :: ws => AutoLabel.signal :: AutoLabel.wake w.tid :: roundLabels ws

/-- Modelled from the spec: a thread blocked inside
`ManualResetWaitableEvent::Wait` or `WaitWithTimeout`, holding the signal
epoch it recorded when it began waiting. -/
structure MWaiter where
  tid : Nat
  epoch : Nat
  timed : Bool
deriving DecidableEq

/-- Modelled from the spec: the lock-serialized global state of one
`ManualResetWaitableEvent` together with the threads blocked on it and the
results of completed wait calls (`true` = the call reported a timeout). -/
structure ManualSys where
  ev : ManualResetWaitableEvent
  blocked : List MWaiter
  completions : List (Nat × Bool)
deriving DecidableEq

/-- Labels of the atomic (lock-protected) sections of the manual-reset event
operations. -/
inductive MLabel where
  | signal : MLabel
  | reset : MLabel
  | enter : Nat → Bool → MLabel
  | enterFast : Nat → MLabel
  | wake : Nat → MLabel
  | timeoutRet : Nat → MLabel
deriving DecidableEq

/-- Thread `t` is neither currently blocked on the event nor has it already
completed a wait call in this system. -/
def freshM (s : ManualSys) (t : Nat) : Prop :=
  (∀ w ∈ s.blocked, w.tid ≠ t) ∧ (∀ c ∈ s.completions, c.1 ≠ t)

/-- Modelled from the spec: the atomic sections of `ManualResetWaitableEvent`,
each executed under the event's internal lock.
`signal` embeds `Signal()` (set the flag, bump the epoch, broadcast); `reset`
embeds `Reset()` (clear the flag only — the epoch is never rolled back).
`enter` is a wait call finding the event unsignaled, recording the current
epoch and blocking; `enterFast` is a wait call finding the event already
signaled and returning at once with no state change.  `wake` is a blocked
thread resuming and exiting its wait loop because the current epoch differs
from the one it recorded (a spurious resume with an unchanged epoch re-blocks
and is a stutter); it does not touch the event state.  `timeoutRet` is a timed
waiter resuming after its deadline while the epoch is still the one it
recorded, returning `true` (timed out). -/
inductive MStep : ManualSys → MLabel → ManualSys → Prop where
  | signal (s : ManualSys) :
      MStep s MLabel.signal ⟨s.ev.Signal, s.blocked, s.completions⟩
  | reset (s : ManualSys) :
      MStep s MLabel.reset ⟨s.ev.Reset, s.blocked, s.completions⟩
  | enter (s : ManualSys) (t : Nat) (timed : Bool) :
      s.ev.signaled = false → freshM s t →
      MStep s (MLabel.enter t timed)
        ⟨s.ev, ⟨t, s.ev.signalId, timed⟩ :: s.blocked, s.completions⟩
  | enterFast (s : ManualSys) (t : Nat) :
      s.ev.signaled = true → freshM s t →
      MStep s (MLabel.enterFast t)
        ⟨s.ev, s.blocked, (t, false) :: s.completions⟩
  | wake (s : ManualSys) (w : MWaiter) :
      w ∈ s.blocked → s.ev.signalId ≠ w.epoch →
      MStep s (MLabel.wake w.tid)
        ⟨s.ev, s.blocked.erase w, (w.tid, false) :: s.completions⟩
  | timeoutRet (s : ManualSys) (w : MWaiter) :
      w ∈ s.blocked → w.timed = true → s.ev.signalId = w.epoch →
      MStep s (MLabel.timeoutRet w.tid)
        ⟨s.ev, s.blocked.erase w, (w.tid, true) :: s.completions⟩

/-- Finite interleavings of atomic sections of the manual-reset event. -/
inductive MTrace : ManualSys → List MLabel → ManualSys → Prop where
  | nil (s : ManualSys) : MTrace s [] s
  | cons {s s₁ s₂ : ManualSys} {l : MLabel} {ls : List MLabel} :
      MStep s l s₁ → MTrace s₁ ls s₂ → MTrace s (l :: ls) s₂

/-- State well-formedness: every recorded epoch is at most the current one,
blocked threads are distinct, and no blocked thread has already completed. -/
def ManualInv (s : ManualSys) : Prop :=
  (∀ w ∈ s.blocked, w.epoch ≤ s.ev.signalId)
  ∧ (s.blocked.map MWaiter.tid).Nodup
  ∧ (∀ w ∈ s.blocked, ∀ c ∈ s.completions, w.tid ≠ c.1)

/-- The signal has been delivered to thread `t`: either it is still blocked
but its wake condition (current epoch differs from the recorded one) already
holds so it can never re-block, or its wait call has completed successfully
(result `false`, not timed out). -/
def WakeDelivered (t : Nat) (s : ManualSys) : Prop :=
  (∃ w, w ∈ s.blocked ∧ w.tid = t ∧ w.epoch < s.ev.signalId)
  ∨ (t, false) ∈ s.completions

/-- Iterated `Wait()` calls on a manual-reset event through the
immediate-return path (`none` as soon as a call would block). -/
def repeatWaitFast : ManualResetWaitableEvent → Nat →
    Option ManualResetWaitableEvent
  | e, 0 => some e
  | e, n + 1 => e.WaitFast.bind (fun e₂ => repeatWaitFast e₂ n)


/-- Operations invoked on a `Monitor` through its public interface
(`synchronization/monitor.cc`): `Enter`, `Exit`, `Wait`, `Signal`. -/
inductive MonOp where
  | enter : MonOp
  | exit : MonOp
  | wait : MonOp
  | signal : MonOp
deriving DecidableEq

/-- The contract violations of `Monitor` usage named by the spec: reentrant
`Enter()`, and `Exit`/`Wait`/`Signal` without holding the lock. -/
inductive MonViolation where
  | reentrantEnter : MonViolation
  | exitNotHeld : MonViolation
  | waitNotHeld : MonViolation
  | signalNotHeld : MonViolation
deriving DecidableEq

/-- Modelled from the spec: the debug-build contract checking beneath
`Monitor` (`monitor.cc` delegates `Enter`/`Exit`/`Wait`/`Signal` to a
`Mutex`/`CondVar` pair whose header with its debug assertions is not among the
sources).  `held` tracks whether the calling thread holds the monitor's lock;
each operation either proceeds or detects a violation: entering while already
holding (the lock is non-reentrant), or exiting, waiting or signaling without
holding.  `Wait` atomically releases and reacquires the lock, so the caller
still holds it afterwards. -/
def runMonitorOps : Bool → List MonOp → Except MonViolation Bool
  | held, [] => Except.ok held
  | held, MonOp.enter :: rest =>
    if held then Except.error MonViolation.reentrantEnter
    else runMonitorOps true rest
  | held, MonOp.exit :: rest =>
    if held then runMonitorOps false rest
    else Except.error MonViolation.exitNotHeld
  | held, MonOp.wait :: rest =>
    if held then runMonitorOps held rest
    else Except.error MonViolation.waitNotHeld
  | held, MonOp.signal :: rest =>
    if held then runMonitorOps held rest
    else Except.error MonViolation.signalNotHeld

/-- The calls a client makes through a `MonitorLocker` while its scope is
open: `MonitorLocker::Wait()` and `MonitorLocker::Signal()`. -/
inductive LockerBody where
  | wait : LockerBody
  | signal : LockerBody
deriving DecidableEq

/-- Per `monitor.cc`, `MonitorLocker::Wait`/`Signal` delegate to the
corresponding monitor operation. -/
def lockerOpOf : LockerBody → MonOp
  | LockerBody.wait => MonOp.wait
  | LockerBody.signal => MonOp.signal

/-- The sequence of monitor operations a `MonitorLocker` scope performs on
monitor pointer `monitor` with body `body`, per `monitor.cc`: the constructor
asserts (`FTL_DCHECK`) that the pointer is non-null — `none` models the failed
debug assertion — and calls `monitor_->Enter()`; the body's `Wait`/`Signal`
calls delegate to the same monitor; the destructor calls `monitor_->Exit()`. -/
def MonitorLocker.scopeOps (monitor : Option Nat) (body : List LockerBody) :
    Option (List (Nat × MonOp)) :=
  match monitor with
  | none => none
  | some m =>
    some ((m, MonOp.enter) ::
      (body.map (fun b => (m, lockerOpOf b)) ++ [(m, MonOp.exit)]))

/-- Recognizes `Enter` operations in a locker trace. -/
def isEnterOp (p : Nat × MonOp) : Bool :=
  match p.2 with
  | MonOp.enter => true
  | _ => false

/-- Recognizes `Exit` operations in a locker trace. -/
def isExitOp (p : Nat × MonOp) : Bool :=
  match p.2 with
  | MonOp.exit => true
  | _ => false

lemma auto_claims_le_aux {s : AutoSys} {ls : List AutoLabel} {s₂ : AutoSys}
    (tr : AutoTrace s ls s₂) (hnr : ∀ l ∈ ls, isResetLabel l = false) :
    countClaims ls + sigBit s₂.ev.signaled ≤
      countSignals ls + sigBit s.ev.signaled := by
  induction tr with
  | nil s => simp [countClaims, countSignals]
  | cons hstep htr ih =>
    rename_i s s₁ s₂ l ls
    have hnr₁ : ∀ l ∈ ls, isResetLabel l = false := fun l hl =>
      hnr l (List.mem_cons_of_mem _ hl)
    have ih₁ := ih hnr₁
    cases hstep with
    | signal =>
      simp only [countClaims, countSignals, AutoResetWaitableEvent.Signal,
        sigBit, if_true] at ih₁ ⊢
      omega
    | reset =>
      have := hnr AutoLabel.reset (List.mem_cons_self _ _)
      simp [isResetLabel] at this
    | enter t timed h1 h2 =>
      simp only [countClaims, countSignals] at ih₁ ⊢
      omega
    | enterClaim t h1 h2 =>
      simp only [countClaims, countSignals, sigBit, h1, if_true,
        Bool.false_eq_true, if_false] at ih₁ ⊢
      omega
    | wake w hmem h1 =>
      simp only [countClaims, countSignals, sigBit, h1, if_true,
        Bool.false_eq_true, if_false] at ih₁ ⊢
      omega
    | timeout w hmem ht h1 =>
      simp only [countClaims, countSignals] at ih₁ ⊢
      omega

lemma auto_claims_le {s : AutoSys} {ls : List AutoLabel} {s₂ : AutoSys}
    (tr : AutoTrace s ls s₂) (hnr : ∀ l ∈ ls, isResetLabel l = false)
    (h0 : s.ev.signaled = false) : countClaims ls ≤ countSignals ls := by
  have h := auto_claims_le_aux tr hnr
  rw [h0] at h
  simp only [sigBit, Bool.false_eq_true, if_false] at h
  omega

lemma auto_round_trace (ws : List AutoWaiter) :
    ∀ (rest : List AutoWaiter) (cs : List (Nat × Bool)),
      AutoTrace ⟨⟨false⟩, ws ++ rest, cs⟩ (roundLabels ws)
        ⟨⟨false⟩, rest, (ws.map (fun w => (w.tid, false))).reverse ++ cs⟩ := by
  induction ws with
  | nil =>
    intro rest cs
    simpa using AutoTrace.nil (⟨⟨false⟩, rest, cs⟩ : AutoSys)
  | cons w ws ih =>
    intro rest cs
    have hstep1 : AutoStep ⟨⟨false⟩, (w :: ws) ++ rest, cs⟩ AutoLabel.signal
        ⟨⟨true⟩, (w :: ws) ++ rest, cs⟩ :=
      AutoStep.signal ⟨⟨false⟩, (w :: ws) ++ rest, cs⟩
    have hstep2 : AutoStep ⟨⟨true⟩, (w :: ws) ++ rest, cs⟩ (AutoLabel.wake w.tid)
        ⟨⟨false⟩, ws ++ rest, (w.tid, false) :: cs⟩ := by
      have h := AutoStep.wake (⟨⟨true⟩, (w :: ws) ++ rest, cs⟩ : AutoSys) w
        (List.mem_cons_self _ _) rfl
      simpa [List.erase_cons_head] using h
    have htail := ih rest ((w.tid, false) :: cs)
    have hfinal : ((ws.map (fun w => (w.tid, false))).reverse ++
        ((w.tid, false) :: cs)) =
        (((w :: ws).map (fun w => (w.tid, false))).reverse ++ cs) := by
      simp
    rw [hfinal] at htail
    exact AutoTrace.cons hstep1 (AutoTrace.cons hstep2 htail)

lemma roundLabels_signals (ws : List AutoWaiter) :
    countSignals (roundLabels ws) = ws.length := by
  induction ws with
  | nil => simp [roundLabels, countSignals]
  | cons w ws ih => simp [roundLabels, countSignals, ih]

lemma roundLabels_no_reset (ws : List AutoWaiter) :
    ∀ l ∈ roundLabels ws, isResetLabel l = false := by
  induction ws with
  | nil => simp [roundLabels]
  | cons w ws ih =>
    intro l hl
    simp only [roundLabels, List.mem_cons] at hl
    rcases hl with h | h | h
    · simp [h, isResetLabel]
    · simp [h, isResetLabel]
    · exact ih l h

/-- C2: with N threads blocked on an `AutoResetWaitableEvent` and M `Signal()`
calls issued sequentially (each one's wake completing before the next, as in
the `MultipleWaiters` test) with no intervening `Reset()`, exactly M of the N
threads are woken: the round schedule for the first M waiters is realizable and
completes exactly those M calls, all reporting success, with no thread woken
twice (the completion tids are distinct); in any reset-free schedule from an
unsignaled event the number of wakes never exceeds the number of signals (so
no `Signal()` wakes more than one thread); and each woken thread sees the
event unsignaled at the moment it resumes. -/
theorem autoReset_exactly_one_wake_per_signal :
    (∀ ws rest : List AutoWaiter,
      AutoTrace ⟨⟨false⟩, ws ++ rest, []⟩ (roundLabels ws)
        ⟨⟨false⟩, rest, (ws.map (fun w => (w.tid, false))).reverse⟩
      ∧ countSignals (roundLabels ws) = ws.length
      ∧ ((ws.map (fun w => (w.tid, false))).reverse).length = ws.length
      ∧ (∀ c ∈ (ws.map (fun w => (w.tid, false))).reverse, c.2 = false)
      ∧ (((ws ++ rest).map AutoWaiter.tid).Nodup →
          ((ws.map (fun w => (w.tid, false))).reverse.map Prod.fst).Nodup))
    ∧ (∀ s ls s₂, AutoTrace s ls s₂ → (∀ l ∈ ls, isResetLabel l = false) →
        s.ev.signaled = false → countClaims ls ≤ countSignals ls)
    ∧ (∀ s t s₂, AutoStep s (AutoLabel.wake t) s₂ →
        s₂.ev.IsSignaledForTest = false) := by
  refine ⟨?_, ?_, ?_⟩
  · intro ws rest
    refine ⟨?_, roundLabels_signals ws, by simp, by simp, ?_⟩
    · have h := auto_round_trace ws rest []
      simpa using h
    · intro h
      rw [List.map_append] at h
      have h2 : (ws.map AutoWaiter.tid).Nodup := (List.nodup_append.mp h).1
      simp only [List.map_reverse, List.map_map, List.nodup_reverse]
      have hc : (Prod.fst ∘ fun (w : AutoWaiter) => (w.tid, false)) =
          AutoWaiter.tid := rfl
      rw [hc]
      exact h2
  · intro s ls s₂ htr hnr h0
    exact auto_claims_le htr hnr h0
  · intro s t s₂ hstep
    cases hstep with
    | wake w hmem h1 => rfl

/-- Witness for C2 at a concrete system: two waiters woken by a round
schedule have distinct tids, and a concrete reset-free trace claims no more
often than it signals. -/
theorem autoReset_exactly_one_wake_per_signal_witness :
    ((([⟨0, false⟩, ⟨1, true⟩] : List AutoWaiter).map
        (fun w => (w.tid, false))).reverse.map Prod.fst).Nodup
    ∧ countClaims [AutoLabel.signal, AutoLabel.enterClaim 5] ≤
        countSignals [AutoLabel.signal, AutoLabel.enterClaim 5] := by
  constructor
  · exact (autoReset_exactly_one_wake_per_signal.1 [⟨0, false⟩, ⟨1, true⟩]
      [⟨2, false⟩]).2.2.2.2 (by decide)
  · exact autoReset_exactly_one_wake_per_signal.2.1 ⟨⟨false⟩, [], []⟩ _ _
      (AutoTrace.cons (AutoStep.signal _)
        (AutoTrace.cons
          (AutoStep.enterClaim _ 5 rfl ⟨by simp, by simp⟩)
          (AutoTrace.nil _)))
      (by decide) rfl

/-- C3: a wait call on a signaled `AutoResetWaitableEvent` atomically claims
the signal: every claiming step (a woken `Wait`/`WaitWithTimeout` or a wait
call entering on a signaled event) sees the event signaled immediately before
it unblocks and leaves it unsignaled (`IsSignaledForTest` false) immediately
after it returns; and in any reset-free schedule from an unsignaled event the
number of claims never exceeds the number of signals, so exactly one call
across all threads claims a given signal. -/
theorem autoReset_wait_claims_signal :
    (∀ s l s₂, AutoStep s l s₂ → isClaimLabel l = true →
      s.ev.IsSignaledForTest = true ∧ s₂.ev.IsSignaledForTest = false)
    ∧ (∀ s ls s₂, AutoTrace s ls s₂ → (∀ l ∈ ls, isResetLabel l = false) →
        s.ev.signaled = false → countClaims ls ≤ countSignals ls) := by
  constructor
  · intro s l s₂ hstep hcl
    cases hstep with
    | signal => simp [isClaimLabel] at hcl
    | reset => simp [isClaimLabel] at hcl
    | enter t timed h1 h2 => simp [isClaimLabel] at hcl
    | enterClaim t h1 h2 => exact ⟨h1, rfl⟩
    | wake w hmem h1 => exact ⟨h1, rfl⟩
    | timeout w hmem ht h1 => simp [isClaimLabel] at hcl
  · intro s ls s₂ htr hnr h0
    exact auto_claims_le htr hnr h0

/-- Witness for C3 at a concrete claiming step. -/
theorem autoReset_wait_claims_signal_witness :
    (AutoResetWaitableEvent.mk true).IsSignaledForTest = true
    ∧ (AutoResetWaitableEvent.mk false).IsSignaledForTest = false := by
  have h := autoReset_wait_claims_signal.1 ⟨⟨true⟩, [⟨3, false⟩], []⟩
    (AutoLabel.wake 3)
    ⟨⟨false⟩, ([⟨3, false⟩] : List AutoWaiter).erase ⟨3, false⟩, [(3, false)]⟩
    (AutoStep.wake _ ⟨3, false⟩ (by simp) rfl) rfl
  exact ⟨h.1, h.2⟩

lemma manual_tid_inj {s : ManualSys} (hinv : ManualInv s) {a b : MWaiter}
    (ha : a ∈ s.blocked) (hb : b ∈ s.blocked) (ht : a.tid = b.tid) : a = b :=
  List.inj_on_of_nodup_map hinv.2.1 ha hb ht

lemma manualInv_step {s : ManualSys} {l : MLabel} {s₁ : ManualSys}
    (hstep : MStep s l s₁) (hinv : ManualInv s) : ManualInv s₁ := by
  obtain ⟨h1, h2, h3⟩ := hinv
  cases hstep with
  | signal =>
    refine ⟨?_, h2, h3⟩
    intro w hw
    have := h1 w hw
    simp only [ManualResetWaitableEvent.Signal]
    omega
  | reset =>
    exact ⟨h1, h2, h3⟩
  | enter t timed hs hf =>
    refine ⟨?_, ?_, ?_⟩
    · intro w hw
      rcases List.mem_cons.mp hw with h | h
      · subst h; exact le_refl _
      · exact h1 w h
    · rw [List.map_cons, List.nodup_cons]
      refine ⟨?_, h2⟩
      intro hmem
      rcases List.mem_map.mp hmem with ⟨w, hw, htid⟩
      exact hf.1 w hw htid
    · intro w hw c hc
      rcases List.mem_cons.mp hw with h | h
      · subst h; exact fun hcontra => hf.2 c hc hcontra.symm
      · exact h3 w h c hc
  | enterFast t hs hf =>
    refine ⟨h1, h2, ?_⟩
    intro w hw c hc
    rcases List.mem_cons.mp hc with h | h
    · subst h; exact hf.1 w hw
    · exact h3 w hw c h
  | wake w hw hne =>
    refine ⟨?_, ?_, ?_⟩
    · intro w₂ hw₂
      exact h1 w₂ (List.mem_of_mem_erase hw₂)
    · exact h2.sublist (List.Sublist.map _ (List.erase_sublist _ _))
    · intro w₂ hw₂ c hc
      have hmem := List.mem_of_mem_erase hw₂
      rcases List.mem_cons.mp hc with h | h
      · subst h
        have hne₂ : w₂ ≠ w := by
          have hbn : s.blocked.Nodup := h2.of_map
          exact ((hbn.mem_erase_iff).mp hw₂).1
        intro htid
        exact hne₂ (manual_tid_inj ⟨h1, h2, h3⟩ hmem hw htid)
      · exact h3 w₂ hmem c h
  | timeoutRet w hw htd heq =>
    refine ⟨?_, ?_, ?_⟩
    · intro w₂ hw₂
      exact h1 w₂ (List.mem_of_mem_erase hw₂)
    · exact h2.sublist (List.Sublist.map _ (List.erase_sublist _ _))
    · intro w₂ hw₂ c hc
      have hmem := List.mem_of_mem_erase hw₂
      rcases List.mem_cons.mp hc with h | h
      · subst h
        have hne₂ : w₂ ≠ w := by
          have hbn : s.blocked.Nodup := h2.of_map
          exact ((hbn.mem_erase_iff).mp hw₂).1
        intro htid
        exact hne₂ (manual_tid_inj ⟨h1, h2, h3⟩ hmem hw htid)
      · exact h3 w₂ hmem c h

lemma wakeDelivered_step {s : ManualSys} {l : MLabel} {s₁ : ManualSys} {t : Nat}
    (hstep : MStep s l s₁) (hP : WakeDelivered t s) :
    WakeDelivered t s₁ := by
  cases hstep with
  | signal =>
    rcases hP with ⟨w, hw, htid, hlt⟩ | hc
    · left
      refine ⟨w, hw, htid, ?_⟩
      simp only [ManualResetWaitableEvent.Signal]
      omega
    · right; exact hc
  | reset =>
    rcases hP with ⟨w, hw, htid, hlt⟩ | hc
    · left; exact ⟨w, hw, htid, hlt⟩
    · right; exact hc
  | enter t₂ timed hs hf =>
    rcases hP with ⟨w, hw, htid, hlt⟩ | hc
    · left; exact ⟨w, List.mem_cons_of_mem _ hw, htid, hlt⟩
    · right; exact hc
  | enterFast t₂ hs hf =>
    rcases hP with ⟨w, hw, htid, hlt⟩ | hc
    · left; exact ⟨w, hw, htid, hlt⟩
    · right; exact List.mem_cons_of_mem _ hc
  | wake w₂ hw₂ hne =>
    rcases hP with ⟨w, hw, htid, hlt⟩ | hc
    · by_cases heq : w = w₂
      · subst heq
        right
        rw [htid]
        exact List.mem_cons_self _ _
      · left
        exact ⟨w, (List.mem_erase_of_ne heq).mpr hw, htid, hlt⟩
    · right; exact List.mem_cons_of_mem _ hc
  | timeoutRet w₂ hw₂ htd heq₂ =>
    rcases hP with ⟨w, hw, htid, hlt⟩ | hc
    · have heq : w ≠ w₂ := by
        intro h
        subst h
        omega
      left
      exact ⟨w, (List.mem_erase_of_ne heq).mpr hw, htid, hlt⟩
    · right; exact List.mem_cons_of_mem _ hc

lemma no_timeout_step {s : ManualSys} {l : MLabel} {s₁ : ManualSys} {t : Nat}
    (hstep : MStep s l s₁) (hinv : ManualInv s) (hP : WakeDelivered t s)
    (hnt : (t, true) ∉ s.completions) : (t, true) ∉ s₁.completions := by
  cases hstep with
  | signal => exact hnt
  | reset => exact hnt
  | enter t₂ timed hs hf => exact hnt
  | enterFast t₂ hs hf =>
    intro hc
    rcases List.mem_cons.mp hc with h | h
    · exact Bool.false_ne_true (congrArg Prod.snd h).symm
    · exact hnt h
  | wake w₂ hw₂ hne =>
    intro hc
    rcases List.mem_cons.mp hc with h | h
    · exact Bool.false_ne_true (congrArg Prod.snd h).symm
    · exact hnt h
  | timeoutRet w₂ hw₂ htd heq₂ =>
    intro hc
    rcases List.mem_cons.mp hc with h | h
    · have htid : w₂.tid = t := (congrArg Prod.fst h).symm
      rcases hP with ⟨w, hw, htid₂, hlt⟩ | hcf
      · have : w = w₂ := manual_tid_inj hinv hw hw₂ (htid₂.trans htid.symm)
        subst this
        omega
      · exact hinv.2.2 w₂ hw₂ (t, false) hcf htid
    · exact hnt h

lemma manual_wake_persists {s : ManualSys} {ls : List MLabel} {s₂ : ManualSys}
    {t : Nat} (tr : MTrace s ls s₂) (hinv : ManualInv s)
    (hP : WakeDelivered t s) (hnt : (t, true) ∉ s.completions) :
    ManualInv s₂ ∧ WakeDelivered t s₂ ∧ (t, true) ∉ s₂.completions := by
  induction tr with
  | nil s => exact ⟨hinv, hP, hnt⟩
  | cons hstep htr ih =>
    exact ih (manualInv_step hstep hinv) (wakeDelivered_step hstep hP)
      (no_timeout_step hstep hinv hP hnt)

/-- C1: for `ManualResetWaitableEvent`, a thread already blocked in `Wait` or
`WaitWithTimeout` at the moment `Signal()` is invoked observes a successful
wake no matter what interleaving follows — including the woken threads or the
signaler calling `Reset()` before it resumes.  After the `Signal()` step and
any subsequent schedule: any blocked entry of that thread has its wake
condition permanently satisfied (recorded epoch below the current one, so it
cannot re-block, because `Reset()` never rolls the epoch back), the signal
delivery persists (`WakeDelivered`), and the thread can never complete with a
timed-out result (`WaitWithTimeout` returns false). -/
theorem manualReset_signal_not_revoked
    (s : ManualSys) (hinv : ManualInv s) (w : MWaiter) (hw : w ∈ s.blocked)
    (s₁ : ManualSys) (hsig : MStep s MLabel.signal s₁)
    (ls : List MLabel) (s₂ : ManualSys) (htr : MTrace s₁ ls s₂)
    (hnt : (w.tid, true) ∉ s.completions) :
    (∀ w₂ ∈ s₂.blocked, w₂.tid = w.tid → w₂.epoch < s₂.ev.signalId)
    ∧ WakeDelivered w.tid s₂
    ∧ (w.tid, true) ∉ s₂.completions := by
  cases hsig with
  | signal =>
    have hinv₁ : ManualInv ⟨s.ev.Signal, s.blocked, s.completions⟩ :=
      manualInv_step (MStep.signal s) hinv
    have hP : WakeDelivered w.tid ⟨s.ev.Signal, s.blocked, s.completions⟩ := by
      left
      refine ⟨w, hw, rfl, ?_⟩
      have := hinv.1 w hw
      simp only [ManualResetWaitableEvent.Signal]
      omega
    obtain ⟨hinv₂, hP₂, hnt₂⟩ := manual_wake_persists htr hinv₁ hP hnt
    refine ⟨?_, hP₂, hnt₂⟩
    intro w₂ hw₂ htid
    rcases hP₂ with ⟨w₃, hw₃, htid₃, hlt₃⟩ | hcf
    · have : w₂ = w₃ := manual_tid_inj hinv₂ hw₂ hw₃ (htid.trans htid₃.symm)
      subst this
      exact hlt₃
    · exact absurd htid (hinv₂.2.2 w₂ hw₂ (w.tid, false) hcf)

/-- Witness for C1: a concrete waiter blocked at epoch 0 survives a
`Signal()` followed immediately by a `Reset()` (by the signaler itself): its
wake condition holds and it has not timed out. -/
theorem manualReset_signal_not_revoked_witness :
    ((∀ w₂ ∈ ([⟨7, 0, true⟩] : List MWaiter), w₂.tid = 7 →
        w₂.epoch < (1 : Nat))
      ∧ WakeDelivered 7 ⟨⟨false, 1⟩, [⟨7, 0, true⟩], []⟩
      ∧ ((7 : Nat), true) ∉ ([] : List (Nat × Bool))) := by
  have h := manualReset_signal_not_revoked ⟨⟨false, 0⟩, [⟨7, 0, true⟩], []⟩
    (by refine ⟨?_, ?_, ?_⟩ <;> simp)
    ⟨7, 0, true⟩ (List.mem_cons_self _ _) _ (MStep.signal _)
    [MLabel.reset] _ (MTrace.cons (MStep.reset _) (MTrace.nil _))
    (by simp)
  exact h

lemma repeatWaitFast_of_signaled (e : ManualResetWaitableEvent)
    (h : e.signaled = true) : ∀ n, repeatWaitFast e n = some e := by
  intro n
  induction n with
  | zero => rfl
  | succ n ih =>
    simp [repeatWaitFast, ManualResetWaitableEvent.WaitFast, h, ih]

/-- C4: for `ManualResetWaitableEvent`, `Wait()` on a signaled event returns
immediately with no state change; every `WaitWithTimeout` that returns false
(success) leaves the state unchanged, both in its non-blocking path and in the
wake step of a blocked waiter; and arbitrarily many repeated waits after one
`Signal()` all succeed without any state mutation, with `IsSignaledForTest`
remaining true, until `Reset()` clears the flag. -/
theorem manualReset_wait_no_state_change :
    (∀ e : ManualResetWaitableEvent, e.signaled = true → e.WaitFast = some e)
    ∧ (∀ (e : ManualResetWaitableEvent) (d : TimeDelta) (r : Bool)
        (e₂ : ManualResetWaitableEvent),
        e.WaitWithTimeoutFast d = some (r, e₂) → r = false → e₂ = e)
    ∧ (∀ s t s₂, MStep s (MLabel.wake t) s₂ → s₂.ev = s.ev)
    ∧ (∀ (e : ManualResetWaitableEvent) (n : Nat), e.signaled = true →
        repeatWaitFast e n = some e)
    ∧ (∀ (e : ManualResetWaitableEvent) (n : Nat),
        repeatWaitFast e.Signal n = some e.Signal
        ∧ (e.Signal).IsSignaledForTest = true
        ∧ ((e.Signal).Reset).IsSignaledForTest = false) := by
  refine ⟨?_, ?_, ?_, ?_, ?_⟩
  · intro e h
    simp [ManualResetWaitableEvent.WaitFast, h]
  · intro e d r e₂ h hr
    subst hr
    by_cases hs : e.signaled
    · simp only [ManualResetWaitableEvent.WaitWithTimeoutFast, hs, if_true,
        Option.some.injEq, Prod.mk.injEq] at h
      exact h.2.symm
    · simp only [ManualResetWaitableEvent.WaitWithTimeoutFast, hs,
        Bool.false_eq_true, if_false] at h
      split at h <;> simp at h
  · intro s t s₂ hstep
    cases hstep with
    | wake w hw hne => rfl
  · intro e n h
    exact repeatWaitFast_of_signaled e h n
  · intro e n
    exact ⟨repeatWaitFast_of_signaled e.Signal rfl n, rfl, rfl⟩

/-- Witness for C4: a concrete signaled event is untouched by a `Wait()` and
by three repeated waits. -/
theorem manualReset_wait_no_state_change_witness :
    (ManualResetWaitableEvent.mk true 1).WaitFast = some ⟨true, 1⟩
    ∧ repeatWaitFast ⟨true, 1⟩ 3 = some ⟨true, 1⟩ :=
  ⟨manualReset_wait_no_state_change.1 ⟨true, 1⟩ rfl,
    manualReset_wait_no_state_change.2.2.2.1 ⟨true, 1⟩ 3 rfl⟩

/-- C5: `WaitWithTimeout(d)` returns true exactly when the wait timed out
without the event being signaled (leaving the event state untouched) and false
exactly when a signal was received; a nonpositive `d` (negative treated as
zero) performs a single non-blocking check: true on an unsignaled event, false
with the signal cleared on a signaled auto-reset event, false with the signal
intact on a signaled manual-reset event.  The last four conjuncts characterize
the blocking case: a timed-out completion happens only with the event
unsignaled (auto) or the epoch unchanged (manual) and records `true` without
touching the event; a signaled completion records `false`. -/
theorem waitWithTimeout_convention :
    (∀ (e : AutoResetWaitableEvent) (d : TimeDelta), d.delta ≤ 0 →
        e.signaled = false → e.WaitWithTimeoutFast d = some (true, e))
    ∧ (∀ (e : AutoResetWaitableEvent) (d : TimeDelta), e.signaled = true →
        e.WaitWithTimeoutFast d = some (false, ⟨false⟩))
    ∧ (∀ (e : ManualResetWaitableEvent) (d : TimeDelta), d.delta ≤ 0 →
        e.signaled = false → e.WaitWithTimeoutFast d = some (true, e))
    ∧ (∀ (e : ManualResetWaitableEvent) (d : TimeDelta), e.signaled = true →
        e.WaitWithTimeoutFast d = some (false, e))
    ∧ (∀ s t s₂, AutoStep s (AutoLabel.timeout t) s₂ →
        s.ev.signaled = false ∧ s₂.ev = s.ev ∧ (t, true) ∈ s₂.completions)
    ∧ (∀ s t s₂, AutoStep s (AutoLabel.wake t) s₂ →
        s.ev.signaled = true ∧ (t, false) ∈ s₂.completions)
    ∧ (∀ s t s₂, MStep s (MLabel.timeoutRet t) s₂ →
        s₂.ev = s.ev ∧ (t, true) ∈ s₂.completions)
    ∧ (∀ s t s₂, MStep s (MLabel.wake t) s₂ →
        s₂.ev = s.ev ∧ (t, false) ∈ s₂.completions) := by
  refine ⟨?_, ?_, ?_, ?_, ?_, ?_, ?_, ?_⟩
  · intro e d hd hs
    simp [AutoResetWaitableEvent.WaitWithTimeoutFast, hs, hd]
  · intro e d hs
    simp [AutoResetWaitableEvent.WaitWithTimeoutFast, hs]
  · intro e d hd hs
    simp [ManualResetWaitableEvent.WaitWithTimeoutFast, hs, hd]
  · intro e d hs
    simp [ManualResetWaitableEvent.WaitWithTimeoutFast, hs]
  · intro s t s₂ hstep
    cases hstep with
    | timeout w hw htd h1 => exact ⟨h1, rfl, List.mem_cons_self _ _⟩
  · intro s t s₂ hstep
    cases hstep with
    | wake w hw h1 => exact ⟨h1, List.mem_cons_self _ _⟩
  · intro s t s₂ hstep
    cases hstep with
    | timeoutRet w hw htd heq => exact ⟨rfl, List.mem_cons_self _ _⟩
  · intro s t s₂ hstep
    cases hstep with
    | wake w hw hne => exact ⟨rfl, List.mem_cons_self _ _⟩

/-- Witness for C5: a negative timeout on a concrete unsignaled auto-reset
event times out immediately, and a zero timeout on a concrete signaled
manual-reset event succeeds without clearing the signal. -/
theorem waitWithTimeout_convention_witness :
    (AutoResetWaitableEvent.mk false).WaitWithTimeoutFast
      (TimeDelta.FromMilliseconds (-5)) = some (true, ⟨false⟩)
    ∧ (ManualResetWaitableEvent.mk true 4).WaitWithTimeoutFast TimeDelta.Zero =
      some (false, ⟨true, 4⟩) :=
  ⟨waitWithTimeout_convention.1 ⟨false⟩ (TimeDelta.FromMilliseconds (-5))
      (by norm_num [TimeDelta.FromMilliseconds]) rfl,
    waitWithTimeout_convention.2.2.2.1 ⟨true, 4⟩ TimeDelta.Zero rfl⟩

/-- C7: `Reset()` is idempotent and unconditional for both variants: on an
already-unsignaled event it is the identity, and in general it transitions any
state to unsignaled; `Signal()` on an already-signaled manual-reset event
leaves the observable signaled state unchanged (still signaled). -/
theorem reset_idempotent_signal_noop :
    (∀ e : AutoResetWaitableEvent, e.signaled = false → e.Reset = e)
    ∧ (∀ e : ManualResetWaitableEvent, e.signaled = false → e.Reset = e)
    ∧ (∀ e : AutoResetWaitableEvent, (e.Reset).signaled = false)
    ∧ (∀ e : ManualResetWaitableEvent, (e.Reset).signaled = false)
    ∧ (∀ e : ManualResetWaitableEvent, e.signaled = true →
        (e.Signal).IsSignaledForTest = e.IsSignaledForTest
        ∧ (e.Signal).IsSignaledForTest = true) := by
  refine ⟨?_, ?_, ?_, ?_, ?_⟩
  · intro e h
    cases e
    simp_all [AutoResetWaitableEvent.Reset]
  · intro e h
    cases e
    simp_all [ManualResetWaitableEvent.Reset]
  · intro e
    rfl
  · intro e
    rfl
  · intro e h
    exact ⟨by simp_all [ManualResetWaitableEvent.Signal,
      ManualResetWaitableEvent.IsSignaledForTest], rfl⟩

/-- Witness for C7 at concrete events. -/
theorem reset_idempotent_signal_noop_witness :
    (AutoResetWaitableEvent.mk false).Reset = ⟨false⟩
    ∧ (ManualResetWaitableEvent.mk true 2).Signal.IsSignaledForTest =
      (ManualResetWaitableEvent.mk true 2).IsSignaledForTest :=
  ⟨reset_idempotent_signal_noop.1 ⟨false⟩ rfl,
    (reset_idempotent_signal_noop.2.2.2.2 ⟨true, 2⟩ rfl).1⟩
lemma runMonitorOps_body (body : List LockerBody) :
    runMonitorOps true (body.map lockerOpOf ++ [MonOp.exit]) =
      Except.ok false := by
  induction body with
  | nil => rfl
  | cons b body ih => cases b <;> simpa [lockerOpOf, runMonitorOps] using ih

lemma locker_countP_enter_zero (m : Nat) (body : List LockerBody) :
    (body.map (fun b => (m, lockerOpOf b))).countP isEnterOp = 0 := by
  rw [List.countP_eq_zero]
  intro p hp
  rcases List.mem_map.mp hp with ⟨b, _, hb⟩
  rw [← hb]
  cases b <;> simp [isEnterOp, lockerOpOf]

lemma locker_countP_exit_zero (m : Nat) (body : List LockerBody) :
    (body.map (fun b => (m, lockerOpOf b))).countP isExitOp = 0 := by
  rw [List.countP_eq_zero]
  intro p hp
  rcases List.mem_map.mp hp with ⟨b, _, hb⟩
  rw [← hb]
  cases b <;> simp [isExitOp, lockerOpOf]

/-- C8: `Monitor` contract violations are detectable in debug builds rather
than silent undefined behavior: calling `Wait()` or `Signal()` without holding
the lock, or entering the lock reentrantly, is reported as a detected
violation (and so is `Exit()` without holding), for any continuation of the
operation sequence, while a correctly bracketed sequence runs to completion. -/
theorem monitor_misuse_detected :
    (∀ rest : List MonOp, runMonitorOps false (MonOp.wait :: rest) =
      Except.error MonViolation.waitNotHeld)
    ∧ (∀ rest : List MonOp, runMonitorOps false (MonOp.signal :: rest) =
      Except.error MonViolation.signalNotHeld)
    ∧ (∀ rest : List MonOp, runMonitorOps true (MonOp.enter :: rest) =
      Except.error MonViolation.reentrantEnter)
    ∧ runMonitorOps false [MonOp.enter, MonOp.enter] =
      Except.error MonViolation.reentrantEnter
    ∧ runMonitorOps false [MonOp.exit] = Except.error MonViolation.exitNotHeld
    ∧ runMonitorOps false [MonOp.enter, MonOp.wait, MonOp.signal, MonOp.exit] =
      Except.ok false :=
  ⟨fun _ => rfl, fun _ => rfl, fun _ => rfl, rfl, rfl, rfl⟩

/-- C10: a `MonitorLocker` scope forms a balanced `Enter`/`Exit` pair on
exactly one monitor: construction with a null monitor pointer fails the debug
assertion; with a non-null monitor the scope produces exactly one `Enter()`
(first) and one `Exit()` (last), every operation — including the delegated
`Wait`/`Signal` calls of the body — targets that same monitor, and the whole
sequence executes without contract violation starting from the lock not held,
ending with it released (so the body runs while the lock is held). -/
theorem monitorLocker_balanced :
    (∀ body : List LockerBody, MonitorLocker.scopeOps none body = none)
    ∧ (∀ (m : Nat) (body : List LockerBody), ∃ tr : List (Nat × MonOp),
        MonitorLocker.scopeOps (some m) body = some tr
        ∧ (∀ p ∈ tr, p.1 = m)
        ∧ tr.countP isEnterOp = 1
        ∧ tr.countP isExitOp = 1
        ∧ tr.head? = some (m, MonOp.enter)
        ∧ tr.getLast? = some (m, MonOp.exit)
        ∧ runMonitorOps false (tr.map Prod.snd) = Except.ok false) := by
  constructor
  · intro body
    rfl
  · intro m body
    refine ⟨(m, MonOp.enter) ::
      (body.map (fun b => (m, lockerOpOf b)) ++ [(m, MonOp.exit)]),
      rfl, ?_, ?_, ?_, rfl, ?_, ?_⟩
    · intro p hp
      rcases List.mem_cons.mp hp with h | h
      · rw [h]
      · rcases List.mem_append.mp h with h | h
        · rcases List.mem_map.mp h with ⟨b, _, hb⟩
          rw [← hb]
        · rw [List.mem_singleton.mp h]
    · rw [List.countP_cons, List.countP_append, locker_countP_enter_zero m body]
      rfl
    · rw [List.countP_cons, List.countP_append, locker_countP_exit_zero m body]
      rfl
    · rw [← List.cons_append]
      exact List.getLast?_concat _
    · have hmap : (((m, MonOp.enter) ::
          (body.map (fun b => (m, lockerOpOf b)) ++
            [(m, MonOp.exit)])).map Prod.snd) =
          MonOp.enter :: (body.map lockerOpOf ++ [MonOp.exit]) := by
        rw [List.map_cons, List.map_append, List.map_map]
        rfl
      rw [hmap]
      show runMonitorOps true (body.map lockerOpOf ++ [MonOp.exit]) =
        Except.ok false
      exact runMonitorOps_body body

/-- C9: `TimeDelta` is a signed, totally ordered duration with saturating
sentinels and second/millisecond conversion: `Min < Zero < Max`,
`FromMilliseconds (-100) < Zero < FromMilliseconds 100`, and
`FromMilliseconds 1000 = FromSeconds 1`. -/
theorem timeDelta_ordering_and_conversion :
    TimeDelta.lt TimeDelta.Min TimeDelta.Zero = true
    ∧ TimeDelta.lt TimeDelta.Zero TimeDelta.Max = true
    ∧ TimeDelta.lt (TimeDelta.FromMilliseconds (-100)) TimeDelta.Zero = true
    ∧ TimeDelta.lt TimeDelta.Zero (TimeDelta.FromMilliseconds 100) = true
    ∧ TimeDelta.FromMilliseconds 1000 = TimeDelta.FromSeconds 1 := by
  refine ⟨by decide, by decide, by decide, by decide, ?_⟩
  show TimeDelta.mk (1000 * 1000000) = TimeDelta.mk (1 * 1000000000)
  norm_num

end Ftl
